import Mathlib

/-!
Verification development for the grant-report word generator
(src/word-generator.js).  JavaScript strings are modelled as `List Char`
(`JStr`); the regular expressions used by the source are translated into
explicit recursive scanners with JS backtracking semantics; the docx
document object built by `generateGrantReportWord` is modelled as an
abstract document tree (`DocModel`).  The external serialization step
(`Packer.toBuffer`) and the docx library internals are outside the
repository and are not modelled; `render` here produces the document tree
handed to that serializer.
-/

namespace WordGen

/-- JavaScript strings, modelled as lists of characters. -/
abbrev JStr := List Char

/-- Model of the JS regex class `\s` / the characters removed by
`String.prototype.trim` (restricted to the ASCII whitespace characters;
the source never manipulates the additional Unicode space characters). -/
def isWS (c : Char) : Bool :=
  c = ' ' || c = '\t' || c = '\n' || c = '\r' || c = '\x0b' || c = '\x0c'

/-- Model of the JS regex class `\d`, i.e. `[0-9]`. -/
def isDigit (c : Char) : Bool :=
  '0' ≤ c && c ≤ '9'

/-- Model of `String.prototype.trim`: drop leading and trailing whitespace. -/
def jsTrim (s : JStr) : JStr :=
  ((s.dropWhile isWS).reverse.dropWhile isWS).reverse

/-- `s.trim().length` as used by the parser's minimum-length check. -/
def trimLen (s : JStr) : Nat :=
  (jsTrim s).length

/-- Truthiness of a JS string value: the empty string is falsy. -/
def truthyStr (s : JStr) : Bool := !s.isEmpty

/-- Truthiness of a nullable JS string value (`null` and `""` are falsy). -/
def truthy : Option JStr → Bool
  | none => false
  | some s => truthyStr s

/-! ### section.split('\n') and the non-blank line filter -/

/-- Worker for splitting at every literal newline character, accumulator in
reverse order (models `String.prototype.split('\n')`). -/
def splitNLGo : JStr → JStr → List JStr
  | acc, [] => [acc.reverse]
  | acc, c :: rest =>
      if c = '\n' then acc.reverse :: splitNLGo [] rest
      else splitNLGo (c :: acc) rest

/-- Model of `section.split('\n')`. -/
def splitNL (s : JStr) : List JStr := splitNLGo [] s

/-- Model of `section.split('\n').filter(l => l.trim())` from
`parseGrantText` (line 240 of the source). -/
def linesOf (s : JStr) : List JStr :=
  (splitNL s).filter (fun l => truthyStr (jsTrim l))

/-! ### the section-boundary regex `\n\n(?=\d+\.|Grant|Foundation)` -/

/-- After at least one digit has been read, the remainder of the lookahead
alternative `\d+\.`: either a dot now, or another digit and recurse. -/
def afterDigit : JStr → Bool
  | [] => false
  | c :: rest => c = '.' || (isDigit c && afterDigit rest)

/-- The lookahead alternative `\d+\.` anchored at the start of `s`. -/
def digitsDot : JStr → Bool
  | [] => false
  | c :: rest => isDigit c && afterDigit rest

/-- Case-sensitive literal pattern `p` anchored at the start of `s`. -/
def litPref : JStr → JStr → Bool
  | [], _ => true
  | _ :: _, [] => false
  | p :: ps, c :: cs => p = c && litPref ps cs

/-- The lookahead `(?=\d+\.|Grant|Foundation)` of the section-splitting
regex, anchored at the start of `s` (case-sensitive: the regex carries no
`i` flag). -/
def startsMarker (s : JStr) : Bool :=
  digitsDot s || litPref "Grant".data s || litPref "Foundation".data s

/-- Worker for `text.split(/\n\n(?=\d+\.|Grant|Foundation)/)`: scan left to
right; at each position try to match `\n\n` with the marker lookahead;
on a match emit the accumulated piece (the match consumes the two
newlines, the lookahead consumes nothing), otherwise advance one
character. -/
def nlThenMarker : JStr → Bool
  | [] => false
  | c :: r => c = '\n' && startsMarker r

/-- One-character-at-a-time scanner: `skip` records that the previous
character completed a `\n\n` match whose second newline (the head of the
current list) still has to be consumed without being rescanned. -/
def splitGoAux : Bool → JStr → JStr → List JStr
  | _, acc, [] => [acc.reverse]
  | true, acc, _ :: rest => splitGoAux false acc rest
  | false, acc, c :: rest =>
      if c = '\n' && nlThenMarker rest then
        acc.reverse :: splitGoAux true [] rest
      else
        splitGoAux false (c :: acc) rest

def splitGo (acc s : JStr) : List JStr := splitGoAux false acc s

/-- Unfolding equation: the scan of the empty string emits the pending
piece. -/
theorem splitGo_nil (acc : JStr) : splitGo acc [] = [acc.reverse] := rfl

/-- Unfolding equation: the scan of a singleton emits the final piece. -/
theorem splitGo_one (acc : JStr) (c : Char) :
    splitGo acc [c] = [(c :: acc).reverse] := by
  unfold splitGo
  rw [show splitGoAux false acc [c] =
      (if c = '\n' && nlThenMarker [] then acc.reverse :: splitGoAux true [] []
       else splitGoAux false (c :: acc) []) from rfl]
  rw [show nlThenMarker ([] : JStr) = false from rfl, Bool.and_false,
    if_neg (by simp)]
  rfl

/-- Unfolding equation: the scan step at a two-character window matches
the source regex `\n\n(?=...)` and otherwise advances one character. -/
theorem splitGo_two (acc : JStr) (c1 c2 : Char) (rest : JStr) :
    splitGo acc (c1 :: c2 :: rest) =
      if c1 = '\n' && c2 = '\n' && startsMarker rest then
        acc.reverse :: splitGo [] rest
      else
        splitGo (c1 :: acc) (c2 :: rest) := by
  unfold splitGo
  rw [show splitGoAux false acc (c1 :: c2 :: rest) =
      (if c1 = '\n' && nlThenMarker (c2 :: rest) then
        acc.reverse :: splitGoAux true [] (c2 :: rest)
       else splitGoAux false (c1 :: acc) (c2 :: rest)) from rfl]
  rw [show nlThenMarker (c2 :: rest) = (c2 = '\n' && startsMarker rest) from rfl]
  rw [show splitGoAux true [] (c2 :: rest) = splitGoAux false [] rest from rfl]
  rw [← Bool.and_assoc]

/-- Model of line 236 of the source:
`const sections = text.split(/\n\n(?=\d+\.|Grant|Foundation)/)`. -/
def splitSections (text : JStr) : List JStr := splitGo [] text

/-! ### title extraction (`extractTitle`, lines 258-264) -/

/-- Model of `firstLine.replace(/^\d+\.\s*/, '')`: if the line starts with
one or more digits followed by a dot, remove them together with any
following whitespace; otherwise leave the line unchanged.  (The regex is
anchored; `\d+` greedy followed by the literal dot is equivalent to the
maximal digit run followed by a dot, since a dot is not a digit.) -/
def stripNumDot (s : JStr) : JStr :=
  let ds := s.takeWhile isDigit
  if ds.isEmpty then s
  else
    match s.dropWhile isDigit with
    | '.' :: r => r.dropWhile isWS
    | _ => s

/-- Case-insensitive anchored match of the (lowercase) pattern `p` against
the start of `s`, folding via `Char.toLower` (ASCII patterns only, which
is all the source uses). -/
def ciPref : JStr → JStr → Bool
  | [], _ => true
  | _ :: _, [] => false
  | p :: ps, c :: cs => p = c.toLower && ciPref ps cs

/-- Model of `s.replace(/^Label:\s*/i, '')` for a lowercase `label:`
pattern `p`: if `p` matches case-insensitively at the start, remove it
and any following whitespace. -/
def stripLabelCI (p : JStr) (s : JStr) : JStr :=
  if ciPref p s then (s.drop p.length).dropWhile isWS else s

/-- Model of `extractTitle` (source lines 258-264): strip a leading numeric
marker, then a leading `Grant:` prefix, then a leading `Foundation:`
prefix (both case-insensitive, each with trailing whitespace), then trim. -/
def extractTitle (firstLine : JStr) : JStr :=
  jsTrim (stripLabelCI "foundation:".data (stripLabelCI "grant:".data (stripNumDot firstLine)))

/-! ### labelled-field extraction
(`extractOrganization` / `extractAmount` / `extractDeadline`, lines 266-279)

Each extractor evaluates `text.match(/(?:L1|L2|L3):\s*([^\n]+)/i)` and
returns the trimmed first capture, or `null` when there is no match.  The
label alternatives of each extractor are pairwise exclusive at any given
position (they differ within their first two characters), so the regex
succeeds at a position exactly when some alternative followed by a colon
matches there and the suffix `\s*([^\n]+)` can then be satisfied; the
leftmost such position wins. -/

/-- Try the label alternatives in order at the current position; each
pattern in `labels` is the lowercase label text already including the
colon.  On success return the text following the colon. -/
def tryLabels : List JStr → JStr → Option JStr
  | [], _ => none
  | p :: ps, s => if ciPref p s then some (s.drop p.length) else tryLabels ps s

/-- Backtracking model of the regex suffix `\s*([^\n]+)` anchored at the
start of `rest`: the greedy `\s*` (which also consumes newlines) is
retracted one character at a time until `[^\n]+` can match at least one
character; the capture is the maximal newline-free run from that point.
Returns the capture, or `none` when the whole suffix cannot match. -/
def capAfter : JStr → Option JStr
  | [] => none
  | c :: rest =>
      if isWS c then
        match capAfter rest with
        | some v => some v
        | none =>
            if c = '\n' then none
            else some ((c :: rest).takeWhile (fun x => x ≠ '\n'))
      else some ((c :: rest).takeWhile (fun x => x ≠ '\n'))

/-- Leftmost-match scan of `text.match(/(?:labels):\s*([^\n]+)/i)` followed
by `match[1].trim()`: at each position, if a label alternative matches
and the capture succeeds, return the trimmed capture; otherwise move one
character right. -/
def findField (labels : List JStr) : JStr → Option JStr
  | [] => none
  | c :: rest =>
      match tryLabels labels (c :: rest) with
      | some after =>
          match capAfter after with
          | some v => some (jsTrim v)
          | none => findField labels rest
      | none => findField labels rest

/-- Label alternatives of `extractOrganization` (lowercase, colon included). -/
def orgLabels : List JStr := ["foundation:".data, "organization:".data, "funder:".data]

/-- Label alternatives of `extractAmount`. -/
def amtLabels : List JStr := ["amount:".data, "funding:".data, "grant size:".data]

/-- Label alternatives of `extractDeadline`. -/
def dlLabels : List JStr := ["deadline:".data, "due:".data, "application due:".data]

/-- Model of `extractOrganization` (source lines 266-269). -/
def extractOrganization (s : JStr) : Option JStr := findField orgLabels s

/-- Model of `extractAmount` (source lines 271-274). -/
def extractAmount (s : JStr) : Option JStr := findField amtLabels s

/-- Model of `extractDeadline` (source lines 276-279). -/
def extractDeadline (s : JStr) : Option JStr := findField dlLabels s

/-! ### parseGrantText (lines 231-256) -/

/-- A parsed grant entry, mirroring the object literal pushed at source
lines 243-250.  `title` is optional because the renderer treats grant
objects with an absent title via the `grant.title || 'Grant Opportunity'`
fallback; the parser itself always supplies a string title. -/
structure GrantRecord where
  raw : JStr
  title : Option JStr
  organization : Option JStr
  amount : Option JStr
  deadline : Option JStr
  description : JStr
  deriving DecidableEq, Repr

/-- The body of the `for` loop of `parseGrantText` for one candidate
section: the section is retained exactly when its trimmed length is
greater than 50 and it has at least one non-blank line (JS lines 238-252;
`none` means nothing is pushed). -/
def sectionRecord? (s : JStr) : Option GrantRecord :=
  if 50 < trimLen s then
    match linesOf s with
    | [] => none
    | l0 :: _ =>
        some { raw := s
               title := some (extractTitle l0)
               organization := extractOrganization s
               amount := extractAmount s
               deadline := extractDeadline s
               description := s }
  else none

/-- Model of `parseGrantText` (source lines 231-256). -/
def parseGrantText (text : JStr) : List GrantRecord :=
  (splitSections text).filterMap sectionRecord?

/-! ## Document renderer (`generateGrantReportWord`, lines 15-228)

The docx object graph is modelled by an abstract document tree.  Purely
constant styling carried by every instance (border style/size/color of
table cells, cell margins, the shading fill `D5E8F0`, the numbering
definition using `LevelFormat.BULLET`, the page-geometry and paragraph/run
style sheets) is recorded once in explicit constant definitions below
rather than repeated on each node. -/

/-- Paragraph alignment values used by the source
(`AlignmentType.RIGHT` / `AlignmentType.CENTER`). -/
inductive Align where
  | left | center | right
  deriving DecidableEq, Repr

/-- A text run (`new TextRun(...)`): text with optional bold, size and
color options, exactly the option fields the source ever sets. -/
structure RunM where
  text : JStr
  bold : Bool := false
  size : Option Nat := none
  color : Option JStr := none
  deriving DecidableEq, Repr

/-- A paragraph child: either a text run or the live `PageNumber.CURRENT`
field (used only in the footer). -/
inductive RunOrField where
  | run (r : RunM)
  | pageNumber (size : Nat) (color : JStr)
  deriving DecidableEq, Repr

/-- Heading levels used by the source (`HeadingLevel.HEADING_1/2/3`). -/
inductive HeadingLv where
  | h1 | h2 | h3
  deriving DecidableEq, Repr

/-- A body block: a paragraph (with optional heading level, alignment,
bullet numbering and before/after spacing) or a two-column table whose
rows are label/value pairs (each row is built by `createTableRow`, whose
constant cell styling is recorded in `tableRowStyle` below). -/
inductive Block where
  | para (heading : Option HeadingLv) (align : Option Align) (bullet : Bool)
      (spacingBefore spacingAfter : Option Nat) (runs : List RunOrField)
  | table (colWidths : List Nat) (rows : List (JStr × JStr))
  deriving DecidableEq, Repr

/-- One of the three named heading styles of the style sheet. -/
structure HeadingStyle where
  size : Nat
  bold : Bool
  font : JStr
  color : Option JStr
  spacingBefore : Nat
  spacingAfter : Nat
  outlineLevel : Nat
  deriving DecidableEq, Repr

/-- The document style sheet (source lines 22-66). -/
structure DocStyles where
  defaultFont : JStr
  defaultSize : Nat
  heading1 : HeadingStyle
  heading2 : HeadingStyle
  heading3 : HeadingStyle
  deriving DecidableEq, Repr

/-- The concrete style sheet built at source lines 22-66. -/
def docStyles : DocStyles :=
  { defaultFont := "Arial".data
    defaultSize := 24
    heading1 := ⟨32, true, "Arial".data, some "1e5f8c".data, 240, 240, 0⟩
    heading2 := ⟨28, true, "Arial".data, some "2d8659".data, 180, 180, 1⟩
    heading3 := ⟨26, true, "Arial".data, none, 120, 120, 2⟩ }

/-- Page geometry (source lines 89-103): US Letter with 1-inch margins. -/
structure PageGeom where
  width : Nat
  height : Nat
  marginTop : Nat
  marginRight : Nat
  marginBottom : Nat
  marginLeft : Nat
  deriving DecidableEq, Repr

/-- The concrete page geometry of the source. -/
def pageGeom : PageGeom := ⟨12240, 15840, 1440, 1440, 1440, 1440⟩

/-- The constant cell styling applied by `createTableRow`
(source lines 337-374): label-cell width 2800 DXA with `D5E8F0` clear
shading and bold 22-half-point text, value-cell width 6560 DXA with
plain 22-half-point text, all four borders single 1pt `CCCCCC`,
margins 80/80/120/120. -/
structure TableRowStyle where
  labelWidth : Nat
  valueWidth : Nat
  labelShadeFill : JStr
  labelBold : Bool
  textSize : Nat
  borderColor : JStr
  borderSize : Nat
  deriving DecidableEq, Repr

/-- The concrete `createTableRow` styling constants. -/
def tableRowStyle : TableRowStyle :=
  ⟨2800, 6560, "D5E8F0".data, true, 22, "CCCCCC".data, 1⟩

/-- The whole rendered document object handed to the serializer. -/
structure DocModel where
  styles : DocStyles
  page : PageGeom
  rowStyle : TableRowStyle
  headerBlocks : List Block
  footerBlocks : List Block
  children : List Block
  deriving DecidableEq, Repr

/-- A context parameter of the request (spec section 3). -/
structure ContextParameter where
  id : JStr
  label : JStr
  description : JStr
  deriving DecidableEq, Repr

/-- The render request destructured at source line 16. -/
structure ReportRequest where
  text : JStr
  orgDescription : Option JStr
  contextParameters : List ContextParameter
  timestamp : JStr
  deriving DecidableEq, Repr

/-- Ambient JavaScript runtime state a render call could in principle read:
the current clock and the random-number generator state.  The renderer is
passed this environment to make its (non-)dependence on it expressible;
the source never consults either member (the only date it constructs is
`new Date(timestamp)` from the caller-supplied timestamp). -/
structure Env where
  nowMillis : Nat
  randSeed : Nat
  deriving DecidableEq, Repr

/-! ### the `Generated:` date text

`new Date(timestamp).toLocaleDateString('en-US', {weekday:'long',
year:'numeric', month:'long', day:'numeric'})` is a pure function of the
timestamp string (fixed locale; the host timezone is fixed configuration,
not current time or randomness).  We model the civil-date computation for
ISO `YYYY-MM-DD...` timestamps and the `Invalid Date` fallback. -/

/-- Numeric value of a digit list (most significant first). -/
def digitsVal (ds : JStr) : Nat :=
  ds.foldl (fun n c => 10 * n + (c.toNat - '0'.toNat)) 0

/-- Extract `(year, month, day)` from the leading `YYYY-MM-DD` of an
ISO-8601 timestamp, or `none` for anything else. -/
def parseISODate (ts : JStr) : Option (Nat × Nat × Nat) :=
  match ts with
  | y1 :: y2 :: y3 :: y4 :: '-' :: m1 :: m2 :: '-' :: d1 :: d2 :: _ =>
      if ([y1, y2, y3, y4, m1, m2, d1, d2]).all (fun c => isDigit c) then
        some (digitsVal [y1, y2, y3, y4], digitsVal [m1, m2], digitsVal [d1, d2])
      else none
  | _ => none

/-- Full month names of the `en-US` locale, January first. -/
def monthNames : List JStr :=
  ["January".data, "February".data, "March".data, "April".data, "May".data,
   "June".data, "July".data, "August".data, "September".data, "October".data,
   "November".data, "December".data]

/-- Full weekday names of the `en-US` locale, Sunday first. -/
def weekdayNames : List JStr :=
  ["Sunday".data, "Monday".data, "Tuesday".data, "Wednesday".data,
   "Thursday".data, "Friday".data, "Saturday".data]

/-- Day of week (0 = Sunday) of a Gregorian civil date, via the day count
from the epoch 1-01-01 (a Monday in the proleptic Gregorian calendar). -/
def dayOfWeek (y m d : Nat) : Nat :=
  let leap : Nat → Bool := fun yr => (yr % 4 = 0 && yr % 100 ≠ 0) || yr % 400 = 0
  let mdays : List Nat := [31, if leap y then 29 else 28, 31, 30, 31, 30, 31, 31, 30, 31, 30, 31]
  let yPrev := y - 1
  let daysBeforeYear := 365 * yPrev + yPrev / 4 - yPrev / 100 + yPrev / 400
  let daysBeforeMonth := ((mdays.take (m - 1)).foldl (· + ·) 0)
  (daysBeforeYear + daysBeforeMonth + d) % 7

/-- Decimal representation of a natural number as a character list. -/
def natStr (n : Nat) : JStr := (toString n).data

/-- The `en-US` long date text, e.g. `Thursday, January 1, 2026`. -/
def formatDateEnUS (ts : JStr) : JStr :=
  match parseISODate ts with
  | none => "Invalid Date".data
  | some (y, m, d) =>
      (weekdayNames.getD (dayOfWeek y m d) []) ++ ", ".data ++
      (monthNames.getD (m - 1) []) ++ " ".data ++ natStr d ++ ", ".data ++ natStr y

/-! ### createGrantSections (lines 282-334) -/

/-- Renderer fallback for the grant heading text:
`grant.title || 'Grant Opportunity'` (the empty string is falsy). -/
def rendererTitle (t : Option JStr) : JStr :=
  match t with
  | none => "Grant Opportunity".data
  | some s => if s.isEmpty then "Grant Opportunity".data else s

/-- The rows pushed for one grant (source lines 301-311): one
label/value row per truthy structured field, organization first, then
amount, then deadline. -/
def rowsOf (g : GrantRecord) : List (JStr × JStr) :=
  (match g.organization with
   | some v => if v.isEmpty then [] else [("Organization".data, v)]
   | none => []) ++
  (match g.amount with
   | some v => if v.isEmpty then [] else [("Amount".data, v)]
   | none => []) ++
  (match g.deadline with
   | some v => if v.isEmpty then [] else [("Deadline".data, v)]
   | none => [])

/-- The blocks pushed for the grant at (0-based) `index`
(body of the `forEach` at source lines 285-331): the level-3 heading
`"<index+1>. <title or fallback>"`; the details table exactly when
`grant.organization || grant.amount || grant.deadline` is truthy; the
description paragraph with spacing 180 before / 360 after. -/
def grantBlocks (index : Nat) (g : GrantRecord) : List Block :=
  [Block.para (some HeadingLv.h3) none false none none
      [RunOrField.run { text := natStr (index + 1) ++ ". ".data ++ rendererTitle g.title }]] ++
  (if truthy g.organization || truthy g.amount || truthy g.deadline then
      [Block.table [2800, 6560] (rowsOf g)]
   else []) ++
  [Block.para none none false (some 180) (some 360)
      [RunOrField.run { text := g.description }]]

/-- Model of `createGrantSections` (source lines 282-334): the per-grant
blocks concatenated in array order with the running index. -/
def createGrantSections (grants : List GrantRecord) : List Block :=
  (grants.enum.map (fun p => grantBlocks p.1 p.2)).flatten

/-! ### generateGrantReportWord (lines 15-228) -/

/-- The running header (source lines 104-119): right-aligned muted
`Grant Prospecting Report`. -/
def headerBlocks : List Block :=
  [Block.para none (some Align.right) false none none
      [RunOrField.run { text := "Grant Prospecting Report".data, size := some 20, color := some "586069".data }]]

/-- The running footer (source lines 120-140): centered `Page ` followed by
the live page-number field. -/
def footerBlocks : List Block :=
  [Block.para none (some Align.center) false none none
      [RunOrField.run { text := "Page ".data, size := some 20, color := some "586069".data },
       RunOrField.pageNumber 20 "586069".data]]

/-- The conditional `Organization Profile` section (source lines 168-181):
emitted exactly when `orgDescription` is truthy. -/
def orgProfileBlocks : Option JStr → List Block
  | some s =>
      if s.isEmpty then []
      else
        [Block.para (some HeadingLv.h2) none false none none
            [RunOrField.run { text := "Organization Profile".data }],
         Block.para none none false none (some 240)
            [RunOrField.run { text := s }]]
  | none => []

/-- The conditional `Search Parameters` section (source lines 184-210):
emitted exactly when `contextParameters` is non-empty; one bulleted item
per parameter (`label: ` bold, then the description), then an empty
spacer paragraph. -/
def searchParamBlocks (ps : List ContextParameter) : List Block :=
  if ps.isEmpty then []
  else
    [Block.para (some HeadingLv.h2) none false none none
        [RunOrField.run { text := "Search Parameters".data }]] ++
    ps.map (fun p =>
      Block.para none none true none none
        [RunOrField.run { text := p.label ++ ": ".data, bold := true },
         RunOrField.run { text := p.description }]) ++
    [Block.para none none false none (some 240) [RunOrField.run { text := [] }]]

/-- Model of `generateGrantReportWord` (source lines 15-228): parse the
request text and assemble the document tree.  The result is the document
object handed to `Packer.toBuffer`; the ambient runtime state `env` is
never consulted. -/
def generateGrantReportWord (env : Env) (req : ReportRequest) : DocModel :=
  let grants := parseGrantText req.text
  { styles := docStyles
    page := pageGeom
    rowStyle := tableRowStyle
    headerBlocks := headerBlocks
    footerBlocks := footerBlocks
    children :=
      [Block.para (some HeadingLv.h1) none false none none
          [RunOrField.run { text := "Grant Prospecting Report".data }],
       Block.para none none false none (some 240)
          [RunOrField.run { text := "Generated: ".data ++ formatDateEnUS req.timestamp,
                            size := some 22, color := some "586069".data }]] ++
      orgProfileBlocks req.orgDescription ++
      searchParamBlocks req.contextParameters ++
      [Block.para (some HeadingLv.h2) none false none none
          [RunOrField.run { text := "Grant Opportunities".data }]] ++
      createGrantSections grants }

/-! ## Spec-side definitions

Definitions in this section transcribe sentences of the specification (not
the source); they exist to be compared with the source-derived definitions
above. -/

/-- Modelled from the spec claim wording for field extraction: the field is
the first case-insensitive occurrence of a label variant followed by a
colon, `with the value being the rest of that line trimmed`, and null when
no label variant matches. -/
def specFieldFirstLine (labels : List JStr) : JStr → Option JStr
  | [] => none
  | c :: rest =>
      match tryLabels labels (c :: rest) with
      | some after => some (jsTrim (after.takeWhile (fun x => x ≠ '\n')))
      | none => specFieldFirstLine labels rest

/-- Declarative (non-backtracking) description of the regex suffix
`\s*([^\n]+)` followed by trimming: skip whitespace (line breaks
included); if a character remains, the value is the following run of
non-newline characters, trimmed; otherwise the suffix still matches with
an effectively empty value when the trailing whitespace contains a
non-newline character, and fails when it is entirely newlines (or empty). -/
def capSpec (rest : JStr) : Option JStr :=
  if (rest.dropWhile isWS).isEmpty then
    if rest.any (fun c => c ≠ '\n') then some [] else none
  else some (jsTrim ((rest.dropWhile isWS).takeWhile (fun x => x ≠ '\n')))

/-- Declarative leftmost-occurrence description of a field extractor: the
first suffix position of `s` at which a label variant matches and the
declarative capture succeeds determines the value. -/
def specFieldAmended (labels : List JStr) (s : JStr) : Option JStr :=
  s.tails.findSome? (fun t => (tryLabels labels t).bind capSpec)

/-- Modelled from the spec sentence for one grant subsection (`idx1` is the
1-based index): a level-3 heading `"<index>. <title or the literal
fallback>"`, then an attribute table with one row per non-empty structured
field when any such row exists, then the full-description paragraph. -/
def grantSubsectionSpec (idx1 : Nat) (g : GrantRecord) : List Block :=
  let rows : List (JStr × JStr) :=
    [("Organization".data, g.organization), ("Amount".data, g.amount),
     ("Deadline".data, g.deadline)].filterMap
      (fun lv => match lv.2 with
        | some v => if v.isEmpty then none else some (lv.1, v)
        | none => none)
  [Block.para (some HeadingLv.h3) none false none none
      [RunOrField.run { text := natStr idx1 ++ ". ".data ++ rendererTitle g.title }]] ++
  (if rows.isEmpty then [] else [Block.table [2800, 6560] rows]) ++
  [Block.para none none false (some 180) (some 360)
      [RunOrField.run { text := g.description }]]

/-- Recognizer for table blocks, used to state table-presence properties. -/
def isTableBlock : Block → Bool
  | Block.table _ _ => true
  | Block.para _ _ _ _ _ _ => false

/-- The text of a paragraph block carrying the given heading level and a
single plain run, and `none` for every other block; used to collect the
heading lines of a rendered document. -/
def headingTextAt (lv : HeadingLv) : Block → Option JStr
  | Block.para h _ _ _ _ [RunOrField.run r] =>
      if h = some lv then some r.text else none
  | _ => none

/-- All level-`lv` heading texts of a document body, in order. -/
def headingTexts (lv : HeadingLv) (d : DocModel) : List JStr :=
  d.children.filterMap (headingTextAt lv)

/-- Whether a document body contains a level-2 heading reading `t`. -/
def hasH2 (t : JStr) (d : DocModel) : Bool :=
  d.children.any (fun b => headingTextAt HeadingLv.h2 b = some t)

/-! ## Lemmas about the section splitter -/

/-- Appending text after a newline does not change the `\d+\.` lookahead
state: the digit scan is stopped by the newline in either case. -/
theorem afterDigit_append (a l : JStr) :
    afterDigit (a ++ '\n' :: l) = afterDigit a := by
  induction a with
  | nil => simp [afterDigit, isDigit]
  | cons c rest ih => simp [afterDigit, ih]

/-- Appending text after a newline does not change the `\d+\.` lookahead. -/
theorem digitsDot_append (a l : JStr) :
    digitsDot (a ++ '\n' :: l) = digitsDot a := by
  cases a with
  | nil => simp [digitsDot, isDigit]
  | cons c rest => simp [digitsDot, afterDigit_append]

/-- Appending text after a newline does not change an anchored literal
match whose pattern contains no newline. -/
theorem litPref_append (p a l : JStr) (hp : '\n' ∉ p) :
    litPref p (a ++ '\n' :: l) = litPref p a := by
  induction p generalizing a with
  | nil => simp [litPref]
  | cons q ps ih =>
      cases a with
      | nil =>
          simp only [List.nil_append, litPref]
          have : ¬ (q = '\n') := by
            intro h; exact hp (h ▸ List.mem_cons_self q ps)
          simp [this]
      | cons c rest =>
          simp only [List.cons_append, litPref]
          rw [show rest.append ('\n' :: l) = rest ++ '\n' :: l from rfl,
            ih rest (fun h => hp (List.mem_cons_of_mem q h))]

/-- The split-boundary lookahead is insensitive to text appended after a
newline. -/
theorem startsMarker_append (a l : JStr) :
    startsMarker (a ++ '\n' :: l) = startsMarker a := by
  unfold startsMarker
  rw [digitsDot_append, litPref_append _ _ _ (by decide), litPref_append _ _ _ (by decide)]

/-- A newline never begins a section marker. -/
theorem startsMarker_nl (l : JStr) : startsMarker ('\n' :: l) = false := by
  simp [startsMarker, digitsDot, isDigit, litPref]

/-- The splitter distributes over a well-formed section boundary: when `b`
begins with a section marker, scanning `a ++ "\n\n" ++ b` splits exactly
into the pieces of `a` followed by the pieces of `b` (the lookahead can
never complete a marker across the inserted newlines). -/
theorem splitGo_append (b : JStr) (hb : startsMarker b = true) :
    ∀ (n : Nat) (a acc : JStr), a.length ≤ n →
      splitGo acc (a ++ '\n' :: '\n' :: b) = splitGo acc a ++ splitGo [] b := by
  intro n
  induction n with
  | zero =>
      intro a acc h
      have ha : a = [] := List.eq_nil_of_length_eq_zero (Nat.le_zero.mp h)
      subst ha
      rw [List.nil_append, splitGo_two, if_pos (by simp [hb]), splitGo_nil,
        List.singleton_append]
  | succ n ih =>
      intro a acc h
      rcases a with _ | ⟨c, _ | ⟨c2, a'⟩⟩
      · rw [List.nil_append, splitGo_two, if_pos (by simp [hb]), splitGo_nil,
          List.singleton_append]
      · rw [List.cons_append, List.nil_append, splitGo_two,
          if_neg (by simp [startsMarker_nl]), splitGo_two, if_pos (by simp [hb]),
          splitGo_one, List.singleton_append]
      · have hm : startsMarker (a' ++ '\n' :: '\n' :: b) = startsMarker a' :=
          startsMarker_append a' ('\n' :: b)
        have hlen : a'.length ≤ n := by
          simp only [List.length_cons] at h; omega
        have hlen2 : (c2 :: a').length ≤ n := by
          simp only [List.length_cons] at h ⊢; omega
        show splitGo acc (c :: c2 :: (a' ++ '\n' :: '\n' :: b)) =
          splitGo acc (c :: c2 :: a') ++ splitGo [] b
        rw [splitGo_two, splitGo_two, hm]
        by_cases hcond : (decide (c = '\n') && decide (c2 = '\n') && startsMarker a') = true
        · rw [if_pos hcond, if_pos hcond, ih a' [] hlen, List.cons_append]
        · rw [if_neg hcond, if_neg hcond]
          exact ih (c2 :: a') (c :: acc) hlen2

/-- Every piece produced by the splitter is a contiguous part of the
scanned text (with the pending accumulator prepended): no section is
invented, every section is a substring. -/
theorem splitGo_part :
    ∀ (n : Nat) (s acc p : JStr), s.length ≤ n → p ∈ splitGo acc s →
      ∃ u v, acc.reverse ++ s = u ++ p ++ v := by
  intro n
  induction n with
  | zero =>
      intro s acc p h hp
      have hs : s = [] := List.eq_nil_of_length_eq_zero (Nat.le_zero.mp h)
      subst hs
      rw [splitGo_nil] at hp
      simp only [List.mem_singleton] at hp
      exact ⟨[], [], by simp [hp]⟩
  | succ n ih =>
      intro s acc p h hp
      rcases s with _ | ⟨c, _ | ⟨c2, rest⟩⟩
      · rw [splitGo_nil] at hp
        simp only [List.mem_singleton] at hp
        exact ⟨[], [], by simp [hp]⟩
      · rw [splitGo_one] at hp
        simp only [List.mem_singleton] at hp
        exact ⟨[], [], by simp [hp]⟩
      · rw [splitGo_two] at hp
        by_cases hcond : (decide (c = '\n') && decide (c2 = '\n') && startsMarker rest) = true
        · rw [if_pos hcond] at hp
          rcases List.mem_cons.mp hp with hph | hpt
          · exact ⟨[], c :: c2 :: rest, by simp [hph]⟩
          · have hlen : rest.length ≤ n := by
              simp only [List.length_cons] at h; omega
            obtain ⟨u, v, huv⟩ := ih rest [] p hlen hpt
            refine ⟨acc.reverse ++ c :: c2 :: u, v, ?_⟩
            simp only [List.reverse_nil, List.nil_append] at huv
            simp [huv, List.append_assoc]
        · rw [if_neg hcond] at hp
          have hlen : (c2 :: rest).length ≤ n := by
            simp only [List.length_cons] at h ⊢; omega
          obtain ⟨u, v, huv⟩ := ih (c2 :: rest) (c :: acc) p hlen hp
          refine ⟨u, v, ?_⟩
          rw [← huv]
          simp

/-- Dropping a prefix cannot lengthen the remainder produced from the
suffix alone. -/
theorem dropWhile_length_le_append (p : Char → Bool) (u v : JStr) :
    (List.dropWhile p v).length ≤ (List.dropWhile p (u ++ v)).length := by
  induction u with
  | nil => simp
  | cons c u' ih =>
      by_cases hc : p c = true
      · simpa [List.dropWhile_cons, hc] using ih
      · have h1 : (List.dropWhile p v).length ≤ v.length :=
          (List.dropWhile_sublist (l := v) p).length_le
        rw [List.cons_append, List.dropWhile_cons, if_neg (by simp [hc])]
        simp only [List.length_cons, List.length_append]
        omega

/-- If the scanned prefix contains a character failing `p`, `dropWhile`
stops inside it and the appended suffix survives intact. -/
theorem dropWhile_append_stop (p : Char → Bool) (u v : JStr)
    (hx : ∃ x ∈ u, p x = false) :
    List.dropWhile p (u ++ v) = List.dropWhile p u ++ v := by
  induction u with
  | nil => obtain ⟨x, hx, _⟩ := hx; simp at hx
  | cons c u' ih =>
      by_cases hc : p c = true
      · obtain ⟨x, hmem, hpx⟩ := hx
        rcases List.mem_cons.mp hmem with rfl | hmem'
        · rw [hc] at hpx; cases hpx
        · simp only [List.cons_append, List.dropWhile_cons, hc, if_pos]
          exact ih ⟨x, hmem', hpx⟩
      · simp [List.dropWhile_cons, hc]

/-- If everything in the prefix satisfies `p`, `dropWhile` passes through
it entirely. -/
theorem dropWhile_append_pass (p : Char → Bool) (u v : JStr)
    (hu : List.dropWhile p u = []) :
    List.dropWhile p (u ++ v) = List.dropWhile p v := by
  induction u with
  | nil => simp
  | cons c u' ih =>
      by_cases hc : p c = true
      · simp only [List.dropWhile_cons, hc, if_pos] at hu
        simpa [List.dropWhile_cons, hc] using ih hu
      · simp [List.dropWhile_cons, hc] at hu

/-- A non-empty `dropWhile` remainder starts with a character failing `p`. -/
theorem dropWhile_ne_nil_head (p : Char → Bool) (l : JStr)
    (h : List.dropWhile p l ≠ []) :
    ∃ c t, List.dropWhile p l = c :: t ∧ p c = false := by
  induction l with
  | nil => simp at h
  | cons c l' ih =>
      by_cases hc : p c = true
      · simp only [List.dropWhile_cons, hc, if_pos] at h ⊢
        exact ih h
      · exact ⟨c, l', by simp [List.dropWhile_cons, hc], by simpa using hc⟩

/-- Trimmed length is monotone under appending text on the right. -/
theorem trimLen_append_right (q b : JStr) : trimLen q ≤ trimLen (q ++ b) := by
  by_cases hq : List.dropWhile isWS q = []
  · have h0 : trimLen q = 0 := by simp [trimLen, jsTrim, hq]
    omega
  · obtain ⟨c, t, hct, hc⟩ := dropWhile_ne_nil_head isWS q hq
    have hcq : c ∈ List.dropWhile isWS q := by
      rw [hct]; exact List.mem_cons_self _ _
    have hmem : c ∈ q := (List.dropWhile_sublist _).subset hcq
    have h1 : List.dropWhile isWS (q ++ b) = List.dropWhile isWS q ++ b :=
      dropWhile_append_stop _ _ _ ⟨c, hmem, hc⟩
    unfold trimLen jsTrim
    rw [h1, List.reverse_append, List.length_reverse, List.length_reverse]
    exact dropWhile_length_le_append _ _ _

/-- Trimmed length is monotone under prepending text on the left. -/
theorem trimLen_append_left (a q : JStr) : trimLen q ≤ trimLen (a ++ q) := by
  by_cases hq : List.dropWhile isWS q = []
  · have h0 : trimLen q = 0 := by simp [trimLen, jsTrim, hq]
    omega
  · obtain ⟨c, t, hct, hc⟩ := dropWhile_ne_nil_head isWS q hq
    have hcq : c ∈ List.dropWhile isWS q := by
      rw [hct]; exact List.mem_cons_self _ _
    have hcrev : c ∈ q.reverse := List.mem_reverse.mpr ((List.dropWhile_sublist _).subset hcq)
    have hsplit : q.reverse = (List.dropWhile isWS q).reverse ++ (List.takeWhile isWS q).reverse := by
      rw [← List.reverse_append, List.takeWhile_append_dropWhile]
    have hstage2 : List.dropWhile isWS q.reverse =
        List.dropWhile isWS ((List.dropWhile isWS q).reverse) ++ (List.takeWhile isWS q).reverse := by
      rw [hsplit]
      exact dropWhile_append_stop _ _ _ ⟨c, List.mem_reverse.mpr hcq, hc⟩
    by_cases ha : List.dropWhile isWS a = []
    · have h1 := dropWhile_append_pass isWS a q ha
      simp [trimLen, jsTrim, h1]
    · obtain ⟨d, t2, hdt, hd⟩ := dropWhile_ne_nil_head isWS a ha
      have hmemd : d ∈ a := (List.dropWhile_sublist _).subset (by
        rw [hdt]; exact List.mem_cons_self _ _)
      have h1 : List.dropWhile isWS (a ++ q) = List.dropWhile isWS a ++ q :=
        dropWhile_append_stop _ _ _ ⟨d, hmemd, hd⟩
      have h2 : List.dropWhile isWS ((List.dropWhile isWS a ++ q).reverse) =
          List.dropWhile isWS q.reverse ++ (List.dropWhile isWS a).reverse := by
        rw [List.reverse_append]
        exact dropWhile_append_stop _ _ _ ⟨c, hcrev, hc⟩
      unfold trimLen jsTrim
      rw [h1, List.length_reverse, List.length_reverse, h2, hstage2]
      simp only [List.length_append]
      omega

/-- Trimmed length is monotone for contiguous parts of a string. -/
theorem trimLen_part (q t : JStr) (h : ∃ u v, t = u ++ q ++ v) :
    trimLen q ≤ trimLen t := by
  obtain ⟨u, v, rfl⟩ := h
  calc trimLen q ≤ trimLen (q ++ v) := trimLen_append_right q v
    _ ≤ trimLen (u ++ (q ++ v)) := trimLen_append_left u (q ++ v)
    _ = trimLen (u ++ q ++ v) := by rw [List.append_assoc]

/-- A string trims to the empty string exactly when it is all whitespace. -/
theorem jsTrim_eq_nil_iff (s : JStr) : jsTrim s = [] ↔ ∀ c ∈ s, isWS c = true := by
  unfold jsTrim
  rw [List.reverse_eq_nil_iff, List.dropWhile_eq_nil_iff]
  constructor
  · intro h c hc
    rw [← List.takeWhile_append_dropWhile isWS s] at hc
    rcases List.mem_append.mp hc with h1 | h2
    · exact List.mem_takeWhile_imp h1
    · exact h c (List.mem_reverse.mpr h2)
  · intro h c hc
    exact h c ((List.dropWhile_sublist _).subset (List.mem_reverse.mp hc))

/-- Every non-newline character of the scanned text (or of the pending
accumulator) ends up inside some piece of the newline splitter. -/
theorem splitNLGo_mem (c : Char) (hc : c ≠ '\n') :
    ∀ (s acc : JStr), (c ∈ acc ∨ c ∈ s) → ∃ l ∈ splitNLGo acc s, c ∈ l := by
  intro s
  induction s with
  | nil =>
      intro acc h
      rcases h with h | h
      · exact ⟨acc.reverse, by simp [splitNLGo], List.mem_reverse.mpr h⟩
      · simp at h
  | cons d rest ih =>
      intro acc h
      by_cases hd : d = '\n'
      · subst hd
        rw [splitNLGo, if_pos rfl]
        rcases h with h | h
        · exact ⟨acc.reverse, List.mem_cons_self _ _, List.mem_reverse.mpr h⟩
        · rcases List.mem_cons.mp h with rfl | h'
          · exact absurd rfl hc
          · obtain ⟨l, hl, hcl⟩ := ih [] (Or.inr h')
            exact ⟨l, List.mem_cons_of_mem _ hl, hcl⟩
      · rw [splitNLGo, if_neg hd]
        rcases h with h | h
        · exact ih (d :: acc) (Or.inl (List.mem_cons_of_mem _ h))
        · rcases List.mem_cons.mp h with rfl | h'
          · exact ih (c :: acc) (Or.inl (List.mem_cons_self _ _))
          · exact ih (d :: acc) (Or.inr h')

/-- A section that does not trim to nothing has at least one non-blank
line, so the guarded first-line access of `parseGrantText` is safe. -/
theorem linesOf_ne_nil (s : JStr) (h : jsTrim s ≠ []) : linesOf s ≠ [] := by
  have hex : ∃ c ∈ s, isWS c = false := by
    by_contra hall
    push_neg at hall
    exact h ((jsTrim_eq_nil_iff s).mpr (fun c hc => by
      have := hall c hc
      revert this
      cases isWS c <;> simp))
  obtain ⟨c, hcs, hcw⟩ := hex
  have hcnl : c ≠ '\n' := by
    intro heq; subst heq; simp [isWS] at hcw
  obtain ⟨l, hl, hcl⟩ := splitNLGo_mem c hcnl s [] (Or.inr hcs)
  have hlt : truthyStr (jsTrim l) = true := by
    have : jsTrim l ≠ [] := by
      intro hnil
      have := (jsTrim_eq_nil_iff l).mp hnil c hcl
      rw [hcw] at this; cases this
    simpa [truthyStr, List.isEmpty_iff]
  intro hnil
  have : l ∈ linesOf s := List.mem_filter.mpr ⟨hl, hlt⟩
  rw [hnil] at this
  exact absurd this (List.not_mem_nil l)

/-- A section whose trimmed length beats the threshold yields a record
with `raw` equal to the section text itself. -/
theorem sectionRecord?_of_long (s : JStr) (h : 50 < trimLen s) :
    ∃ g, sectionRecord? s = some g ∧ g.raw = s ∧ g.description = s ∧
      g.title = some (extractTitle ((linesOf s).headD [])) := by
  have htrim : jsTrim s ≠ [] := by
    intro hnil
    rw [trimLen, hnil] at h
    simp at h
  have hlines := linesOf_ne_nil s htrim
  unfold sectionRecord?
  rw [if_pos h]
  cases hls : linesOf s with
  | nil => exact absurd hls hlines
  | cons l0 ls => exact ⟨_, rfl, rfl, rfl, rfl⟩

/-- A section at or below the threshold is discarded. -/
theorem sectionRecord?_of_short (s : JStr) (h : ¬ 50 < trimLen s) :
    sectionRecord? s = none := by
  unfold sectionRecord?
  rw [if_neg h]

/-- The raw sections of the parsed records are exactly the split pieces
whose trimmed length exceeds 50, in order. -/
theorem parse_raw_filter (text : JStr) :
    (parseGrantText text).map GrantRecord.raw =
      (splitSections text).filter (fun s => decide (50 < trimLen s)) := by
  unfold parseGrantText
  induction splitSections text with
  | nil => rfl
  | cons s L ih =>
      by_cases h : 50 < trimLen s
      · obtain ⟨g, hg, hraw, -, -⟩ := sectionRecord?_of_long s h
        rw [List.filterMap_cons, hg, List.filter_cons_of_pos (by simpa using h),
          List.map_cons, hraw, ih]
      · rw [List.filterMap_cons, sectionRecord?_of_short s h,
          List.filter_cons_of_neg (by simpa using h), ih]

/-- The parse result is empty exactly when every split piece is at or
below the 50-character trimmed-length threshold. -/
theorem parse_eq_nil_iff (text : JStr) :
    parseGrantText text = [] ↔ ∀ s ∈ splitSections text, trimLen s ≤ 50 := by
  constructor
  · intro h s hs
    have := parse_raw_filter text
    rw [h] at this
    have hfil := (List.filter_eq_nil_iff.mp this.symm) s hs
    simpa [Nat.not_lt] using hfil
  · intro h
    have : (parseGrantText text).map GrantRecord.raw = [] := by
      rw [parse_raw_filter, List.filter_eq_nil_iff]
      intro s hs
      simpa [Nat.not_lt] using h s hs
    exact List.map_eq_nil_iff.mp this

/-- Under-threshold total input parses to the empty list: every split
piece is a part of the text, so its trimmed length is bounded by the
text's trimmed length. -/
theorem parse_nil_of_short (text : JStr) (h : trimLen text ≤ 50) :
    parseGrantText text = [] := by
  rw [parse_eq_nil_iff]
  intro s hs
  have hpart := splitGo_part text.length text [] s le_rfl hs
  simp only [List.reverse_nil, List.nil_append] at hpart
  exact le_trans (trimLen_part s text hpart) h

/-! ## Lemmas about field extraction -/

/-- Unfolding: a whitespace head passes a successful deeper capture
through unchanged. -/
theorem capAfter_cons_ws_some (c : Char) (v rest : JStr) (hws : isWS c = true)
    (h : capAfter rest = some v) : capAfter (c :: rest) = some v := by
  rw [capAfter, if_pos hws, h]

/-- Unfolding: on a whitespace head with no deeper capture, the scan
backtracks to capture at the head itself unless the head is a newline. -/
theorem capAfter_cons_ws_none (c : Char) (rest : JStr) (hws : isWS c = true)
    (h : capAfter rest = none) :
    capAfter (c :: rest) =
      if c = '\n' then none
      else some ((c :: rest).takeWhile (fun x => x ≠ '\n')) := by
  rw [capAfter, if_pos hws, h]

/-- Unfolding: a non-whitespace head captures immediately. -/
theorem capAfter_cons_nonws (c : Char) (rest : JStr) (hws : isWS c = false) :
    capAfter (c :: rest) = some ((c :: rest).takeWhile (fun x => x ≠ '\n')) := by
  rw [capAfter, if_neg (by simp [hws])]

/-- `capSpec` inversion: it fails exactly on strings of newlines (possibly
empty). -/
theorem capSpec_eq_none_iff (rest : JStr) :
    capSpec rest = none ↔
      (List.dropWhile isWS rest = [] ∧ rest.any (fun x => x ≠ '\n') = false) := by
  unfold capSpec
  by_cases h1 : (List.dropWhile isWS rest).isEmpty = true
  · rw [if_pos h1]
    by_cases h2 : rest.any (fun x => decide (x ≠ '\n')) = true
    · rw [if_pos h2]
      constructor
      · intro h; cases h
      · rintro ⟨-, hfalse⟩
        rw [h2] at hfalse; cases hfalse
    · rw [if_neg h2]
      have h2' : rest.any (fun x => decide (x ≠ '\n')) = false := Bool.eq_false_iff.mpr h2
      constructor
      · intro _; exact ⟨List.isEmpty_iff.mp h1, h2'⟩
      · intro _; rfl
  · rw [if_neg h1]
    constructor
    · intro h; cases h
    · rintro ⟨hnil, -⟩
      exact absurd (by rw [hnil]; rfl : (List.dropWhile isWS rest).isEmpty = true) h1

/-- A whitespace head does not change the declarative capture as long as
the remainder can still capture. -/
theorem capSpec_cons_ws_of_some (c : Char) (rest w : JStr) (hws : isWS c = true)
    (h : capSpec rest = some w) : capSpec (c :: rest) = capSpec rest := by
  have hdw : List.dropWhile isWS (c :: rest) = List.dropWhile isWS rest := by
    rw [List.dropWhile_cons, if_pos hws]
  by_cases h1 : (List.dropWhile isWS rest).isEmpty = true
  · have h2 : rest.any (fun x => decide (x ≠ '\n')) = true := by
      by_contra h2
      have h2' : rest.any (fun x => decide (x ≠ '\n')) = false := Bool.eq_false_iff.mpr h2
      have hnone : capSpec rest = none :=
        (capSpec_eq_none_iff rest).mpr ⟨List.isEmpty_iff.mp h1, h2'⟩
      rw [h] at hnone
      cases hnone
    have h2c : (c :: rest).any (fun x => decide (x ≠ '\n')) = true := by
      rw [List.any_cons, h2, Bool.or_true]
    unfold capSpec
    rw [hdw, if_pos h1, if_pos h1, if_pos h2, if_pos h2c]
  · unfold capSpec
    rw [hdw, if_neg h1, if_neg h1]

/-- The backtracking capture, trimmed, agrees with its declarative
description `capSpec`. -/
theorem capAfter_eq_capSpec (rest : JStr) :
    Option.map jsTrim (capAfter rest) = capSpec rest := by
  induction rest with
  | nil => rfl
  | cons c rest ih =>
      by_cases hws : isWS c = true
      · cases hca : capAfter rest with
        | some v =>
            rw [capAfter_cons_ws_some c v rest hws hca]
            rw [hca] at ih
            rw [show Option.map jsTrim (some v) = some (jsTrim v) from rfl] at ih ⊢
            rw [ih, capSpec_cons_ws_of_some c rest (jsTrim v) hws ih.symm]
        | none =>
            rw [hca] at ih
            rw [show Option.map jsTrim (none : Option JStr) = none from rfl] at ih
            obtain ⟨h1, h2⟩ := (capSpec_eq_none_iff rest).mp ih.symm
            have hall : ∀ x ∈ rest, isWS x = true := List.dropWhile_eq_nil_iff.mp h1
            have hdw : List.dropWhile isWS (c :: rest) = [] := by
              rw [List.dropWhile_cons, if_pos hws]; exact h1
            rw [capAfter_cons_ws_none c rest hws hca]
            by_cases hc : c = '\n'
            · rw [if_pos hc]
              have h2c : (c :: rest).any (fun x => decide (x ≠ '\n')) = false := by
                rw [List.any_cons, h2, Bool.or_false, hc]
                simp
              unfold capSpec
              rw [if_pos (by rw [hdw]; rfl), if_neg (by rw [h2c]; simp)]
              rfl
            · rw [if_neg hc]
              have htw : ∀ x ∈ (c :: rest).takeWhile (fun x => decide (x ≠ '\n')), isWS x = true := by
                intro x hx
                have hx' : x ∈ c :: rest := (List.takeWhile_sublist _).subset hx
                rcases List.mem_cons.mp hx' with rfl | hx''
                · exact hws
                · exact hall x hx''
              have hjt : jsTrim ((c :: rest).takeWhile (fun x => decide (x ≠ '\n'))) = [] :=
                (jsTrim_eq_nil_iff _).mpr htw
              have h2c : (c :: rest).any (fun x => decide (x ≠ '\n')) = true := by
                rw [List.any_cons]
                simp [hc]
              unfold capSpec
              rw [if_pos (by rw [hdw]; rfl), if_pos h2c]
              rw [show Option.map jsTrim (some ((c :: rest).takeWhile (fun x => decide (x ≠ '\n')))) =
                some (jsTrim ((c :: rest).takeWhile (fun x => decide (x ≠ '\n')))) from rfl, hjt]
      · have hws' : isWS c = false := Bool.eq_false_iff.mpr hws
        rw [capAfter_cons_nonws c rest hws']
        have hdw : List.dropWhile isWS (c :: rest) = c :: rest := by
          rw [List.dropWhile_cons, if_neg (by simp [hws'])]
        unfold capSpec
        rw [if_neg (by rw [hdw]; simp), hdw]
        rfl

/-- A label can only match the empty string with an empty remainder. -/
theorem tryLabels_nil_after (labels : List JStr) (a : JStr)
    (h : tryLabels labels [] = some a) : a = [] := by
  induction labels with
  | nil => simp [tryLabels] at h
  | cons p ps ih =>
      rw [tryLabels] at h
      by_cases hp : ciPref p [] = true
      · rw [if_pos hp] at h
        simpa using h.symm
      · rw [if_neg hp] at h
        exact ih h

/-- The recursive leftmost scan of `findField` equals the declarative
first-matching-suffix description (with the declarative capture). -/
theorem findField_eq_tails (labels : List JStr) (s : JStr) :
    findField labels s =
      s.tails.findSome? (fun t => (tryLabels labels t).bind capSpec) := by
  induction s with
  | nil =>
      rw [show (List.tails ([] : JStr)) = [[]] from rfl]
      rw [List.findSome?_cons]
      cases ht : tryLabels labels [] with
      | none => rfl
      | some a =>
          have := tryLabels_nil_after labels a ht
          subst this
          rfl
  | cons c rest ih =>
      rw [findField, List.tails_cons, List.findSome?_cons]
      cases ht : tryLabels labels (c :: rest) with
      | none =>
          show findField labels rest = _
          exact ih
      | some after =>
          have hcap := capAfter_eq_capSpec after
          cases hca : capAfter after with
          | some v =>
              rw [hca, Option.map_some'] at hcap
              show (match capAfter after with
                    | some v => some (jsTrim v)
                    | none => findField labels rest) = _
              rw [hca, Option.some_bind, ← hcap]
          | none =>
              rw [hca, Option.map_none'] at hcap
              show (match capAfter after with
                    | some v => some (jsTrim v)
                    | none => findField labels rest) = _
              rw [hca, Option.some_bind, ← hcap]
              exact ih

/-! ## Lemmas about the renderer -/

/-- The per-grant block sequence of the source agrees with the
spec-transcribed subsection builder (with truthiness replacing the
spec's null test). -/
theorem grantBlocks_eq_spec (i : Nat) (g : GrantRecord) :
    grantBlocks i g = grantSubsectionSpec (i + 1) g := by
  obtain ⟨raw, title, org, amt, dl, desc⟩ := g
  cases org with
  | none =>
      cases amt with
      | none =>
          cases dl with
          | none =>
              simp [grantBlocks, grantSubsectionSpec, rowsOf, truthy, truthyStr,
                List.filterMap_cons]
          | some v =>
              by_cases hv : v = [] <;>
                simp [grantBlocks, grantSubsectionSpec, rowsOf, truthy, truthyStr,
                  List.isEmpty_iff, hv, List.filterMap_cons]
      | some v =>
          by_cases hv : v = [] <;>
          cases dl with
          | none =>
              simp [grantBlocks, grantSubsectionSpec, rowsOf, truthy, truthyStr,
                List.isEmpty_iff, hv, List.filterMap_cons]
          | some w =>
              by_cases hw : w = [] <;>
                simp [grantBlocks, grantSubsectionSpec, rowsOf, truthy, truthyStr,
                  List.isEmpty_iff, hv, hw, List.filterMap_cons]
  | some u =>
      by_cases hu : u = [] <;>
      cases amt with
      | none =>
          cases dl with
          | none =>
              simp [grantBlocks, grantSubsectionSpec, rowsOf, truthy, truthyStr,
                List.isEmpty_iff, hu, List.filterMap_cons]
          | some v =>
              by_cases hv : v = [] <;>
                simp [grantBlocks, grantSubsectionSpec, rowsOf, truthy, truthyStr,
                  List.isEmpty_iff, hu, hv, List.filterMap_cons]
      | some v =>
          by_cases hv : v = [] <;>
          cases dl with
          | none =>
              simp [grantBlocks, grantSubsectionSpec, rowsOf, truthy, truthyStr,
                List.isEmpty_iff, hu, hv, List.filterMap_cons]
          | some w =>
              by_cases hw : w = [] <;>
                simp [grantBlocks, grantSubsectionSpec, rowsOf, truthy, truthyStr,
                  List.isEmpty_iff, hu, hv, hw, List.filterMap_cons]

/-- No block emitted for a grant is a level-2 heading: grant subsections
consist of a level-3 heading, an optional table and a plain paragraph. -/
theorem grantBlocks_no_h2 (t : JStr) (i : Nat) (g : GrantRecord) :
    (grantBlocks i g).any (fun b => decide (headingTextAt HeadingLv.h2 b = some t)) = false := by
  unfold grantBlocks
  by_cases hcond : (truthy g.organization || truthy g.amount || truthy g.deadline) = true <;>
    simp [hcond, headingTextAt]

/-- The whole grant-opportunities body contains no level-2 heading. -/
theorem createGrantSections_no_h2 (t : JStr) (grants : List GrantRecord) :
    (createGrantSections grants).any
      (fun b => decide (headingTextAt HeadingLv.h2 b = some t)) = false := by
  unfold createGrantSections
  generalize grants.enum = l
  induction l with
  | nil => rfl
  | cons p l ih =>
      rw [List.map_cons, List.flatten_cons, List.any_append, ih,
        grantBlocks_no_h2 t p.1 p.2]
      rfl

/-- Which level-2 headings the rendered body contains, as a function of the
request: the conditional profile and parameters headings, and the always
present `Grant Opportunities` heading. -/
theorem hasH2_render (e : Env) (req : ReportRequest) (t : JStr) :
    hasH2 t (generateGrantReportWord e req) =
      ((truthy req.orgDescription && decide ("Organization Profile".data = t)) ||
       ((!req.contextParameters.isEmpty) && decide ("Search Parameters".data = t)) ||
       decide ("Grant Opportunities".data = t)) := by
  unfold hasH2 generateGrantReportWord
  simp only [List.any_append, List.any_cons, List.any_nil]
  rw [createGrantSections_no_h2 t (parseGrantText req.text)]
  have htitle : headingTextAt HeadingLv.h2
      (Block.para (some HeadingLv.h1) none false none none
        [RunOrField.run { text := "Grant Prospecting Report".data }]) = none := by
    simp [headingTextAt]
  have hdate : ∀ ts : JStr, headingTextAt HeadingLv.h2
      (Block.para none none false none (some 240)
        [RunOrField.run { text := "Generated: ".data ++ formatDateEnUS ts,
                          size := some 22, color := some "586069".data }]) = none := by
    intro ts; simp [headingTextAt]
  have horg : (orgProfileBlocks req.orgDescription).any
      (fun b => decide (headingTextAt HeadingLv.h2 b = some t)) =
      (truthy req.orgDescription && decide ("Organization Profile".data = t)) := by
    cases ho : req.orgDescription with
    | none => simp [orgProfileBlocks, truthy]
    | some sdesc =>
        by_cases hs : sdesc.isEmpty = true
        · simp [orgProfileBlocks, truthy, truthyStr, hs]
        · have hs' : sdesc.isEmpty = false := Bool.eq_false_iff.mpr hs
          simp [orgProfileBlocks, truthy, truthyStr, hs', headingTextAt]
  have hsp : (searchParamBlocks req.contextParameters).any
      (fun b => decide (headingTextAt HeadingLv.h2 b = some t)) =
      ((!req.contextParameters.isEmpty) && decide ("Search Parameters".data = t)) := by
    cases hps : req.contextParameters with
    | nil => simp [searchParamBlocks]
    | cons q qs =>
        have hne : ((q :: qs : List ContextParameter).isEmpty) = false := rfl
        unfold searchParamBlocks
        rw [hne]
        simp only [Bool.false_eq_true, if_false, List.any_append, List.any_cons, List.any_nil]
        have hbul : ((q :: qs).map (fun p =>
            Block.para none none true none none
              [RunOrField.run { text := p.label ++ ": ".data, bold := true },
               RunOrField.run { text := p.description }])).any
            (fun b => decide (headingTextAt HeadingLv.h2 b = some t)) = false := by
          apply List.any_eq_false.mpr
          intro b hb
          obtain ⟨p, hp, rfl⟩ := List.mem_map.mp hb
          simp [headingTextAt]
        rw [hbul]
        simp [headingTextAt]
  rw [htitle, hdate req.timestamp, horg, hsp]
  simp [headingTextAt]

/-- Inversion of the per-section loop body: a produced record carries the
section text in `raw` and `description`, came from an over-threshold
section, and always has a present (non-null) title. -/
theorem sectionRecord?_inv (s : JStr) (g : GrantRecord) (h : sectionRecord? s = some g) :
    g.raw = s ∧ g.description = s ∧ 50 < trimLen s ∧ ∃ t, g.title = some t := by
  unfold sectionRecord? at h
  by_cases hlen : 50 < trimLen s
  · rw [if_pos hlen] at h
    cases hls : linesOf s with
    | nil => rw [hls] at h; cases h
    | cons l0 ls =>
        rw [hls] at h
        cases Option.some.inj h
        exact ⟨rfl, rfl, hlen, extractTitle l0, rfl⟩
  · rw [if_neg hlen] at h; cases h

/-! ## Sample inputs -/

/-- The well-formed one-grant input of the specification, section 8. -/
def sampleText1 : JStr :=
  ("1. Foundation ABC\nFoundation: XYZ Corp\nAmount: $10,000\nDeadline: 2026-01-01\nSome description text padding to exceed fifty characters total.").data

/-- The record the parser produces for `sampleText1`. -/
def sampleRecord1 : GrantRecord :=
  { raw := sampleText1
    title := some "Foundation ABC".data
    organization := some "XYZ Corp".data
    amount := some "$10,000".data
    deadline := some "2026-01-01".data
    description := sampleText1 }

/-- A candidate section whose trimmed length is exactly 50 characters. -/
def shortText50 : JStr := ("Grant for community garden projects in Springfield").data

/-- An input whose trimmed length is below 50 characters. -/
def tinyText : JStr := ("Grant: nothing here").data

/-- A three-grant input text for the round-trip scenario. -/
def text3 : JStr :=
  ("1. Alpha Grant\nAmount: $1,000\nA first grant description padded well past fifty characters.\n\n2. Beta Grant\nAmount: $2,000\nA second grant description padded well past fifty characters.\n\n3. Gamma Grant\nAmount: $3,000\nA third grant description padded well past fifty characters.").data

/-- A second grant chunk beginning with a numeric section marker. -/
def chunkB : JStr :=
  ("2. Second Grant Opportunity\nFunder: Beta Org\nSecond grant description padded past the threshold!").data

/-- A grant record whose organization field is the non-null empty string
(producible by the parser from a section ending in `Funder: ` followed by
trailing whitespace). -/
def exGrantC4 : GrantRecord :=
  { raw := "x".data
    title := some "T".data
    organization := some []
    amount := none
    deadline := none
    description := "d".data }

/-- A section text in which a field label is followed by a newline before
the value. -/
def sampleTextC7 : JStr := ("Foundation:\nXYZ Corp").data

set_option maxRecDepth 20000

/-! ## Claim theorems -/

/-- C1: parsing the specified well-formed input yields exactly one record
with organization `XYZ Corp`, amount `$10,000`, deadline `2026-01-01` and
title `Foundation ABC` (and, as always, the full text as description). -/
theorem claim_C1 : parseGrantText sampleText1 = [sampleRecord1] := by decide

/-- C2 counterexample: a candidate section whose trimmed length is exactly
50 — at least 50, so the claim says it is retained — is discarded by the
code, whose test is strictly greater than 50 (line 239: `> 50`). -/
theorem counterex_C2 :
    trimLen shortText50 = 50 ∧ splitSections shortText50 = [shortText50] ∧
      parseGrantText shortText50 = [] := by decide

/-- C2 (amended): parse retains exactly those candidate sections whose
trimmed length is strictly greater than 50 (in split order), and any text
whose full trimmed length is under 50 parses to the empty list. -/
theorem claim_C2_amended : ∀ text : JStr,
    (parseGrantText text).map GrantRecord.raw =
      (splitSections text).filter (fun s => decide (50 < trimLen s)) ∧
    (trimLen text < 50 → parseGrantText text = []) :=
  fun text =>
    ⟨parse_raw_filter text,
     fun h => parse_nil_of_short text (Nat.le_of_lt h)⟩

/-- C2 witness: the amended theorem applied at a concrete under-50 input. -/
theorem witness_C2 : trimLen tinyText < 50 ∧ parseGrantText tinyText = [] :=
  ⟨by decide, (claim_C2_amended tinyText).2 (by decide)⟩

/-- C3: rendering is deterministic — the document tree depends only on the
request; the ambient runtime state (current time, randomness) is never
consulted, so two calls on identical input yield identical documents. -/
theorem claim_C3 : ∀ (e₁ e₂ : Env) (req : ReportRequest),
    generateGrantReportWord e₁ req = generateGrantReportWord e₂ req :=
  fun _ _ _ => rfl

/-- C4 counterexample: a record whose organization is the non-null empty
string falsifies the claim — it has a non-null structured field, yet the
renderer (which tests truthiness, line 297) emits no attribute table for
it. -/
theorem counterex_C4 :
    exGrantC4.organization ≠ none ∧
      (createGrantSections [exGrantC4]).all (fun b => !isTableBlock b) = true := by
  refine ⟨by decide, by decide⟩

/-- C4 (amended): one subsection per record in order — level-3 heading
`"<index>. <title or fallback>"`, an attribute table with one row per
non-empty structured field exactly when such a row exists (truthiness,
not mere non-nullness), then the description paragraph; rendering the
parse of a 3-grant text yields exactly the three numbered level-3
headings in order. -/
theorem claim_C4_amended :
    (∀ grants : List GrantRecord,
        createGrantSections grants =
          (grants.enum.map (fun p => grantSubsectionSpec (p.1 + 1) p.2)).flatten) ∧
    headingTexts HeadingLv.h3
        (generateGrantReportWord ⟨0, 0⟩
          { text := text3, orgDescription := none, contextParameters := [],
            timestamp := "2026-01-01T00:00:00.000Z".data }) =
      ["1. Alpha Grant".data, "2. Beta Grant".data, "3. Gamma Grant".data] := by
  constructor
  · intro grants
    unfold createGrantSections
    rw [show (fun p : Nat × GrantRecord => grantBlocks p.1 p.2) =
        (fun p : Nat × GrantRecord => grantSubsectionSpec (p.1 + 1) p.2) from
      funext fun p => grantBlocks_eq_spec p.1 p.2]
  · decide

/-- C5: the Organization Profile section is present exactly when the
orgDescription is truthy (non-null and non-empty), and the Search
Parameters section exactly when the parameter list is non-empty; with a
null description and an empty list both headings are absent. -/
theorem claim_C5 : ∀ (e : Env) (req : ReportRequest),
    hasH2 "Organization Profile".data (generateGrantReportWord e req) =
      truthy req.orgDescription ∧
    hasH2 "Search Parameters".data (generateGrantReportWord e req) =
      !req.contextParameters.isEmpty := by
  intro e req
  constructor
  · rw [hasH2_render e req ("Organization Profile".data),
      show decide ("Organization Profile".data = "Organization Profile".data) = true from by decide,
      show decide ("Search Parameters".data = "Organization Profile".data) = false from by decide,
      show decide ("Grant Opportunities".data = "Organization Profile".data) = false from by decide]
    simp
  · rw [hasH2_render e req ("Search Parameters".data),
      show decide ("Organization Profile".data = "Search Parameters".data) = false from by decide,
      show decide ("Search Parameters".data = "Search Parameters".data) = true from by decide,
      show decide ("Grant Opportunities".data = "Search Parameters".data) = false from by decide]
    simp

/-- C6: parsing distributes over a well-formed section boundary — records
appear in input order and chunks separated by a blank line followed by a
marker are neither split nor merged. -/
theorem claim_C6 : ∀ (a b : JStr), startsMarker b = true →
    parseGrantText (a ++ '\n' :: '\n' :: b) = parseGrantText a ++ parseGrantText b := by
  intro a b hb
  unfold parseGrantText splitSections
  rw [splitGo_append b hb a.length a [] le_rfl, List.filterMap_append]

/-- C6 witness: the concatenation theorem applied at two concrete chunks. -/
theorem witness_C6 :
    startsMarker chunkB = true ∧
      parseGrantText (sampleText1 ++ '\n' :: '\n' :: chunkB) =
        parseGrantText sampleText1 ++ parseGrantText chunkB :=
  ⟨by decide, claim_C6 sampleText1 chunkB (by decide)⟩

/-- C7 counterexample: with the label at the end of its line, the code
captures the next line (`\s*` in the regex crosses the newline), whereas
the claim predicts the rest of that line, trimmed — the empty string. -/
theorem counterex_C7 :
    extractOrganization sampleTextC7 = some "XYZ Corp".data ∧
      specFieldFirstLine orgLabels sampleTextC7 = some [] ∧
      extractOrganization sampleTextC7 ≠ specFieldFirstLine orgLabels sampleTextC7 := by
  refine ⟨by decide, by decide, by decide⟩

/-- C7 (amended): each field is extracted at the first position where a
label variant followed by a colon is in turn followed by a capturable
character (whitespace after the colon, including line breaks, is
skipped); the value is that run of non-newline characters, trimmed; an
occurrence followed only by whitespace up to the end of the text is
skipped, except that trailing non-newline whitespace still matches and
trims to the empty string; the field is null when no position matches. -/
theorem claim_C7_amended : ∀ s : JStr,
    extractOrganization s = specFieldAmended orgLabels s ∧
    extractAmount s = specFieldAmended amtLabels s ∧
    extractDeadline s = specFieldAmended dlLabels s :=
  fun s =>
    ⟨findField_eq_tails orgLabels s, findField_eq_tails amtLabels s,
     findField_eq_tails dlLabels s⟩

/-- C8: every parsed record keeps the entire original section verbatim as
its description — extraction is non-destructive. -/
theorem claim_C8 : ∀ (text : JStr) (g : GrantRecord), g ∈ parseGrantText text →
    g.description = g.raw ∧ g.raw ∈ splitSections text := by
  intro text g hg
  obtain ⟨s, hs, hrec⟩ := List.mem_filterMap.mp hg
  obtain ⟨hraw, hdesc, -, -⟩ := sectionRecord?_inv s g hrec
  exact ⟨by rw [hdesc, hraw], by rw [hraw]; exact hs⟩

/-- C8 witness: the description invariant at the concrete sample input. -/
theorem witness_C8 :
    sampleRecord1.description = sampleRecord1.raw ∧
      sampleRecord1.raw ∈ splitSections sampleText1 :=
  claim_C8 sampleText1 sampleRecord1 (by decide)

/-- C9: parse is total by construction (every JS operation it performs is
total, and the sole indexing `lines[0]` is guarded by the non-emptiness
test); its only failure mode is the empty list, which happens exactly
when every split section is at or below the 50-character threshold. -/
theorem claim_C9 : ∀ text : JStr,
    parseGrantText text = [] ↔ ∀ s ∈ splitSections text, trimLen s ≤ 50 :=
  parse_eq_nil_iff

/-- C10: the parser never produces a null title — every record carries
`some` title string (possibly empty), and the renderer fallback text is
selected from parser output exactly on the empty-string title. -/
theorem claim_C10 : ∀ (text : JStr) (g : GrantRecord), g ∈ parseGrantText text →
    ∃ t, g.title = some t ∧
      rendererTitle g.title = (if t.isEmpty then "Grant Opportunity".data else t) := by
  intro text g hg
  obtain ⟨s, hs, hrec⟩ := List.mem_filterMap.mp hg
  obtain ⟨-, -, -, t, ht⟩ := sectionRecord?_inv s g hrec
  exact ⟨t, ht, by rw [ht]; rfl⟩

/-- C10 witness: the non-null-title invariant at the concrete sample. -/
theorem witness_C10 :
    ∃ t, sampleRecord1.title = some t ∧
      rendererTitle sampleRecord1.title =
        (if t.isEmpty then "Grant Opportunity".data else t) :=
  claim_C10 sampleText1 sampleRecord1 (by decide)

end WordGen
